import Mathlib

/-!
# Verification of the workflow-graph execution engine

Shallow embedding of the engine in `app/engine.py` and the tool registry in
`app/registry.py` of the repository, together with proofs of the spec's
claims about them.

Modelling choices, mirrored from the Python source:

* A Python value is either a scalar (int / string / bool / None) or a
  reference to a heap-allocated mutable object (`Val.vRef`).  The heap is a
  list of mutable cells (`Heap`), each holding a list of values; this is
  enough aliasing structure to distinguish Python's shallow `dict.copy()`
  from a deep copy, which several claims are about.
* A Python dict with string keys is an insertion-ordered association list
  (`Dict`).  `dictSet` is `d[k] = v` (replace in place if the key exists,
  append otherwise); `dictUpdate` is `d.update(u)`; `dictLookup` is `d[k]`.
* A tool is a function from the working state and the heap to either an
  exception (`Except.error` carrying `str(e)`) or a result value plus a
  possibly mutated heap.  Tools read the working mapping and may mutate
  heap objects (nested values); the engine alone rebinds top-level keys,
  which is how `Graph.run` uses them (`state.update(updates)`).
* `Graph.run`'s `while` loop is a fuel recursion; the fuel is
  `MAX_STEPS - steps`, so fuel `0` is the `steps == MAX_STEPS` exit.
* A raised exception is an `Except.error` carrying `str(e)` together with
  the engine's local `logs` list at the moment of the raise.  Python
  discards that local on propagation; it is kept here as a ghost
  observation so that claims about what was appended to the trace before
  the raise can be stated.
-/

/-- A Python scalar value or a reference to a heap-allocated mutable object. -/
inductive Val where
  | vInt : Int → Val
  | vStr : String → Val
  | vBool : Bool → Val
  | vNone : Val
  | vRef : Nat → Val
deriving DecidableEq, Repr

/-- A Python dict with string keys: an insertion-ordered association list. -/
abbrev Dict := List (String × Val)

/-- The heap of mutable objects; each cell models a Python list object. -/
abbrev Heap := List (List Val)

/-- `d[k]`: first binding of `k` in the association list. -/
def dictLookup : Dict → String → Option Val
  | [], _ => none
  | (k', v) :: rest, k => if k = k' then some v else dictLookup rest k

/-- `d[k] = v`: replace the binding in place if `k` is present, else append
(Python dicts keep insertion order and overwrite values in place). -/
def dictSet : Dict → String → Val → Dict
  | [], k, v => [(k, v)]
  | (k', v') :: rest, k, v =>
      if k = k' then (k', v) :: rest else (k', v') :: dictSet rest k v

/-- `d.update(u)`: apply every binding of `u` to `d`, in order. -/
def dictUpdate (d : Dict) (u : Dict) : Dict :=
  u.foldl (fun s kv => dictSet s kv.1 kv.2) d

/-- Read heap cell `a` (dereference a `Val.vRef`). -/
def heapGet (h : Heap) (a : Nat) : Option (List Val) :=
  h.get? a

/-- Overwrite heap cell `a` (an in-place mutation of a shared object). -/
def heapSet (h : Heap) (a : Nat) (cell : List Val) : Heap :=
  h.set a cell

/-- What a tool call returns: a dict of updates, or any non-dict value
(`isinstance(updates, dict)` distinguishes the two in `Graph.run`). -/
inductive ToolResult where
  | dict : Dict → ToolResult
  | nonDict : Val → ToolResult
deriving DecidableEq, Repr

/-- A tool: reads the working state and the heap, may mutate heap objects,
and either returns a result or raises (modelled as `Except.error str(e)`). -/
abbrev Tool := Dict → Heap → Except String (ToolResult × Heap)

/-- `app/registry.py`, `ToolRegistry`: the name → callable mapping. -/
structure ToolRegistry where
  tools : List (String × Tool)

/-- dict assignment for the registry's mapping (same shape as `dictSet`). -/
def regSet : List (String × Tool) → String → Tool → List (String × Tool)
  | [], k, v => [(k, v)]
  | (k', v') :: rest, k, v =>
      if k = k' then (k', v) :: rest else (k', v') :: regSet rest k v

/-- `ToolRegistry.register`: stores / overwrites the binding for `name`
(`self._tools[name] = func`). -/
def ToolRegistry.register (r : ToolRegistry) (name : String) (f : Tool) :
    ToolRegistry :=
  { tools := regSet r.tools name f }

/-- lookup in the registry's mapping (same shape as `dictLookup`). -/
def regLookup : List (String × Tool) → String → Option Tool
  | [], _ => none
  | (k', v) :: rest, k => if k = k' then some v else regLookup rest k

/-- `ToolRegistry.get_tool`: return the bound callable or raise
`ValueError(f"Tool '{name}' not found.")`. -/
def ToolRegistry.get_tool (r : ToolRegistry) (name : String) :
    Except String Tool :=
  match regLookup r.tools name with
  | some f => .ok f
  | none => .error ("Tool " ++ name ++ " not found.")

/-- `app/engine.py`, `Node`: a named step bound to a tool name. -/
structure Node where
  name : String
  tool_name : String

/-- `app/engine.py`, `Edge`: a directed transition with an optional guard
(`condition`), a predicate over the state (and, through references, the
heap). -/
structure Edge where
  source_node : String
  target_node : String
  condition : Option (Dict → Heap → Bool)

/-- `app/engine.py`, `Graph`: node mapping, ordered edge list, start node. -/
structure Graph where
  name : String
  nodes : List (String × Node)
  edges : List Edge
  start_node : String

/-- lookup in the graph's node mapping (same shape as `dictLookup`). -/
def nodeLookup : List (String × Node) → String → Option Node
  | [], _ => none
  | (k', v) :: rest, k => if k = k' then some v else nodeLookup rest k

/-- node-mapping assignment (same shape as `dictSet`). -/
def nodeSet : List (String × Node) → String → Node → List (String × Node)
  | [], k, v => [(k, v)]
  | (k', v') :: rest, k, v =>
      if k = k' then (k', v) :: rest else (k', v') :: nodeSet rest k v

/-- `Graph.add_node`: `self.nodes[node.name] = node`. -/
def Graph.add_node (g : Graph) (n : Node) : Graph :=
  { g with nodes := nodeSet g.nodes n.name n }

/-- `Graph.add_edge`: `self.edges.append(edge)`. -/
def Graph.add_edge (g : Graph) (e : Edge) : Graph :=
  { g with edges := g.edges ++ [e] }

/-- scan a list of edges as the `for edge in possible_edges` loop of
`Graph._get_next_node` does: guarded edge whose guard is true, or the
first unguarded edge, returns its target immediately. -/
def scanEdges : List Edge → Dict → Heap → Option String
  | [], _, _ => none
  | e :: rest, state, h =>
      match e.condition with
      | some cond => if cond state h then some e.target_node
                     else scanEdges rest state h
      | none => some e.target_node

/-- `Graph._get_next_node`: filter the edge list to those leaving
`current_node`, then scan them in order; `none` models Python's `None`
("terminal node"). -/
def Graph.get_next_node (g : Graph) (current_node : String) (state : Dict)
    (h : Heap) : Option String :=
  scanEdges (g.edges.filter (fun e => e.source_node = current_node)) state h

/-- One record of the `logs` list built by `Graph.run`: a success record
`{step, node, updates, state_snapshot}` or a failure record
`{step, node, error}` (no state snapshot field). -/
inductive LogEntry where
  | success : Nat → String → ToolResult → Dict → LogEntry
  | failure : Nat → String → String → LogEntry
deriving DecidableEq, Repr

/-- `MAX_STEPS = 100`, the safety brake of `Graph.run`. -/
def MAX_STEPS : Nat := 100

/-- `state.update(updates)` guarded by `isinstance(updates, dict)`:
a dict result is merged, anything else leaves the state alone. -/
def applyResult (state : Dict) : ToolResult → Dict
  | .dict u => dictUpdate state u
  | .nonDict _ => state

/-- What `Graph.run` produces: on normal return, the final state, the
`logs` list and the final heap; on a raise, `str(e)` plus the engine's
local `logs` at that moment (a ghost observation, see the file header)
and the heap as the exception reaches the caller — mutations performed by
completed steps are not undone by the raise. -/
abbrev RunOutcome :=
  Except (String × List LogEntry × Heap) (Dict × List LogEntry × Heap)

/-- The `while current_node_name and steps < MAX_STEPS` loop of
`Graph.run`.  `fuel` is `MAX_STEPS - steps`; `cur = none` is Python's
`None`, and `some ""` is also falsy for the loop condition. -/
def runLoop (g : Graph) (reg : ToolRegistry) :
    Nat → Option String → Dict → Heap → List LogEntry → Nat → RunOutcome
  | 0, _, state, h, logs, _ => .ok (state, logs, h)
  | _ + 1, none, state, h, logs, _ => .ok (state, logs, h)
  | fuel + 1, some c, state, h, logs, steps =>
      if c = "" then .ok (state, logs, h)
      else
        match nodeLookup g.nodes c with
        | none => .error ("Node " ++ c ++ " not found in graph.", logs, h)
        | some node =>
            match ToolRegistry.get_tool reg node.tool_name with
            | .error e => .error (e, logs ++ [.failure steps c e], h)
            | .ok f =>
                match f state h with
                | .error e => .error (e, logs ++ [.failure steps c e], h)
                | .ok (res, h') =>
                    let state' := applyResult state res
                    let logs' := logs ++ [.success steps c res state']
                    runLoop g reg fuel (g.get_next_node c state' h') state' h'
                      logs' (steps + 1)

/-- `Graph.run`: copy the initial state (a shallow copy — the association
list is shared structurally, references included), start at `start_node`
with an empty `logs` and `steps = 0`. -/
def Graph.run (g : Graph) (initial_state : Dict) (reg : ToolRegistry)
    (h : Heap) : RunOutcome :=
  runLoop g reg MAX_STEPS (some g.start_node) initial_state h [] 0

/-! ## Basic dictionary lemmas -/

/-- Setting a key makes it the one looked up. -/
theorem dictLookup_dictSet_self (d : Dict) (k : String) (v : Val) :
    dictLookup (dictSet d k v) k = some v := by
  induction d with
  | nil => simp [dictSet, dictLookup]
  | cons kv rest ih =>
      obtain ⟨k', v'⟩ := kv
      by_cases hk : k = k'
      · simp [dictSet, hk, dictLookup]
      · simp [dictSet, hk, dictLookup, ih]

/-- Setting one key leaves every other key's binding alone. -/
theorem dictLookup_dictSet_ne (d : Dict) (k k' : String) (v : Val)
    (h : k' ≠ k) : dictLookup (dictSet d k v) k' = dictLookup d k' := by
  induction d with
  | nil => simp [dictSet, dictLookup, h]
  | cons kv rest ih =>
      obtain ⟨k₀, v₀⟩ := kv
      by_cases hk : k = k₀
      · subst hk
        simp [dictSet, dictLookup, h]
      · by_cases hk' : k' = k₀
        · simp [dictSet, hk, dictLookup, hk']
        · simp [dictSet, hk, dictLookup, hk', ih]

/-- A missing key means the lookup misses every entry. -/
theorem dictLookup_eq_none_iff (d : Dict) (k : String) :
    dictLookup d k = none ↔ k ∉ d.map Prod.fst := by
  induction d with
  | nil => simp [dictLookup]
  | cons kv rest ih =>
      obtain ⟨k', v'⟩ := kv
      by_cases hk : k = k'
      · simp [dictLookup, hk]
      · simp [dictLookup, hk, ih, Ne.symm]

/-- `d.update(u)` with distinct keys in `u`: a key in `u` gets `u`'s value,
a key missing from `u` keeps `d`'s value. -/
theorem dictLookup_dictUpdate (d u : Dict) (hnd : (u.map Prod.fst).Nodup)
    (k : String) :
    dictLookup (dictUpdate d u) k =
      (dictLookup u k).rec (dictLookup d k) (fun v => some v) := by
  induction u generalizing d with
  | nil => simp [dictUpdate, dictLookup]
  | cons kv rest ih =>
      obtain ⟨k₀, v₀⟩ := kv
      simp only [List.map_cons, List.nodup_cons] at hnd
      have step : dictUpdate d ((k₀, v₀) :: rest)
          = dictUpdate (dictSet d k₀ v₀) rest := by
        simp [dictUpdate, List.foldl_cons]
      rw [step, ih (dictSet d k₀ v₀) hnd.2]
      by_cases hk : k = k₀
      · subst hk
        have hrest : dictLookup rest k = none :=
          (dictLookup_eq_none_iff rest k).2 hnd.1
        simp [dictLookup, hrest, dictLookup_dictSet_self]
      · simp [dictLookup, hk, dictLookup_dictSet_ne d k₀ k v₀ hk]

/-! ## C1 — first-match routing -/

/-- Modelled from the spec's words (§4.3): the routing result is the target
of the first edge leaving `current_node` that has no guard or whose guard
is true on the state, and null when no such edge exists. -/
def routeFirstMatch (g : Graph) (current_node : String) (state : Dict)
    (h : Heap) : Option String :=
  ((g.edges.filter (fun e => e.source_node = current_node)).find?
      (fun e => match e.condition with
        | none => true
        | some cond => cond state h)).map (fun e => e.target_node)

theorem scanEdges_eq_find (es : List Edge) (state : Dict) (h : Heap) :
    scanEdges es state h =
      (es.find? (fun e => match e.condition with
        | none => true
        | some cond => cond state h)).map (fun e => e.target_node) := by
  induction es with
  | nil => simp [scanEdges]
  | cons e rest ih =>
      cases hc : e.condition with
      | none => simp [scanEdges, hc, List.find?_cons]
      | some cond =>
          cases hg : cond state h with
          | true => simp [scanEdges, hc, hg, List.find?_cons]
          | false => simp [scanEdges, hc, hg, List.find?_cons, ih]

/-- C1: the routing resolver scans the edges in declared order restricted
to those leaving the current node and returns the target of the first edge
with no guard or a true guard, never a later one; with no match it returns
null.  Stated as: `Graph._get_next_node` coincides with the first-match
search written from the spec's words. -/
theorem c1_routing_first_match (g : Graph) (current_node : String)
    (state : Dict) (h : Heap) :
    g.get_next_node current_node state h = routeFirstMatch g current_node state h := by
  unfold Graph.get_next_node routeFirstMatch
  exact scanEdges_eq_find _ state h

/-! ## C7 — registry register / resolve -/

/-- Setting a name in the registry mapping makes it the one looked up. -/
theorem regLookup_regSet_self (ts : List (String × Tool)) (k : String)
    (f : Tool) : regLookup (regSet ts k f) k = some f := by
  induction ts with
  | nil => simp [regSet, regLookup]
  | cons kv rest ih =>
      obtain ⟨k', v'⟩ := kv
      by_cases hk : k = k'
      · simp [regSet, hk, regLookup]
      · simp [regSet, hk, regLookup, ih]

/-- A demonstration tool used by concrete instances below: returns an empty
update dict and leaves the heap alone. -/
def demoTool : Tool := fun _ h => .ok (.dict [], h)

/-- C7: after `register(name, f)`, `get_tool name` returns exactly `f`
(the most recent registration for the name wins, since `register`
overwrites the binding in place), and `get_tool` on an unregistered name
raises a `ValueError` naming the missing tool.  `get_tool` is a plain
function of the registry returning only the callable or the error, so it
cannot modify the registry. -/
theorem c7_registry_register_resolve (r : ToolRegistry) (name name' : String)
    (f : Tool) :
    (ToolRegistry.get_tool (ToolRegistry.register r name f) name = .ok f)
    ∧ (regLookup r.tools name' = none →
        ToolRegistry.get_tool r name' =
          .error ("Tool " ++ name' ++ " not found.")) := by
  constructor
  · simp [ToolRegistry.get_tool, ToolRegistry.register, regLookup_regSet_self]
  · intro hmiss
    simp [ToolRegistry.get_tool, hmiss]

/-- Concrete instance of C7: register `demoTool` under `"t"` into the empty
registry and resolve it; resolve a never-registered name. -/
theorem c7_witness :
    (ToolRegistry.get_tool (ToolRegistry.register ⟨[]⟩ "t" demoTool) "t"
        = .ok demoTool)
    ∧ (ToolRegistry.get_tool (⟨[]⟩ : ToolRegistry) "missing"
        = .error ("Tool " ++ "missing" ++ " not found.")) :=
  ⟨(c7_registry_register_resolve ⟨[]⟩ "t" "missing" demoTool).1,
   (c7_registry_register_resolve ⟨[]⟩ "t" "missing" demoTool).2 rfl⟩

/-! ## C10 — empty start node -/

/-- C10: when `start_node` is the empty string the loop condition
`while current_node_name and steps < MAX_STEPS` is falsy at once, so `run`
returns normally with an empty trace and the (copied) initial state,
without ever looking a node up — no `NodeNotFound` is raised. -/
theorem c10_empty_start_node (g : Graph) (s : Dict) (reg : ToolRegistry)
    (h : Heap) (hstart : g.start_node = "") :
    g.run s reg h = .ok (s, [], h) := by
  unfold Graph.run
  rw [hstart]
  rfl

/-- Concrete instance of C10: a graph whose `start_node` is `""` returns
the initial state untouched with an empty trace. -/
theorem c10_witness :
    Graph.run ⟨"G", [], [], ""⟩ [("x", Val.vInt 1)] ⟨[]⟩ []
      = .ok ([("x", Val.vInt 1)], [], []) :=
  c10_empty_start_node ⟨"G", [], [], ""⟩ [("x", Val.vInt 1)] ⟨[]⟩ [] rfl

/-! ## C2 — step ceiling -/

/-- The `logs` list an outcome carries (the returned trace on a normal
return; the engine's local list at the moment of a raise). -/
def logsOfOutcome : RunOutcome → List LogEntry
  | .ok (_, logs, _) => logs
  | .error (_, logs, _) => logs

/-- Each loop iteration appends at most one record, so the trace grows by
at most the remaining fuel. -/
theorem runLoop_logs_length (g : Graph) (reg : ToolRegistry) :
    ∀ (fuel : Nat) (cur : Option String) (state : Dict) (h : Heap)
      (logs : List LogEntry) (steps : Nat),
    (logsOfOutcome (runLoop g reg fuel cur state h logs steps)).length
      ≤ logs.length + fuel := by
  intro fuel
  induction fuel with
  | zero => intro cur state h logs steps; simp [runLoop, logsOfOutcome]
  | succ n ih =>
      intro cur state h logs steps
      cases cur with
      | none => simp [runLoop, logsOfOutcome]
      | some c =>
          by_cases hc : c = ""
          · simp [runLoop, hc, logsOfOutcome]
          · rw [runLoop, if_neg hc]
            cases hn : nodeLookup g.nodes c with
            | none => simp [logsOfOutcome]
            | some node =>
                dsimp only
                cases ht : ToolRegistry.get_tool reg node.tool_name with
                | error e => simp [logsOfOutcome]
                | ok f =>
                    dsimp only
                    cases hr : f state h with
                    | error e => simp [logsOfOutcome]
                    | ok p =>
                        obtain ⟨res, h'⟩ := p
                        dsimp only
                        refine le_trans (ih _ _ _ _ _) ?_
                        simp
                        omega

/-- When a stock of nodes `P` always resolves, always runs its tool
successfully, and always routes back into `P`, the loop consumes all its
fuel, appending exactly one success record per unit of fuel, and still
returns normally. -/
theorem runLoop_cycle_exact (g : Graph) (reg : ToolRegistry)
    (P : String → Prop)
    (hne : ∀ c, P c → c ≠ "")
    (hstep : ∀ c, P c → ∃ node, nodeLookup g.nodes c = some node ∧
        ∃ f, ToolRegistry.get_tool reg node.tool_name = .ok f ∧
        ∀ state h, ∃ res h', f state h = .ok (res, h'))
    (hnext : ∀ c state h, P c → ∃ t, g.get_next_node c state h = some t ∧ P t) :
    ∀ (fuel : Nat) (c : String) (state : Dict) (h : Heap)
      (logs : List LogEntry) (steps : Nat), P c →
    ∃ fs logs' hf, runLoop g reg fuel (some c) state h logs steps
        = .ok (fs, logs', hf) ∧ logs'.length = logs.length + fuel := by
  intro fuel
  induction fuel with
  | zero =>
      intro c state h logs steps _
      exact ⟨state, logs, h, rfl, by simp⟩
  | succ n ih =>
      intro c state h logs steps hPc
      obtain ⟨node, hn, f, ht, hok⟩ := hstep c hPc
      obtain ⟨res, h', hr⟩ := hok state h
      obtain ⟨t, hroute, hPt⟩ :=
        hnext c (applyResult state res) h' hPc
      rw [runLoop, if_neg (hne c hPc)]
      simp only [hn, ht, hr]
      rw [hroute]
      obtain ⟨fs, logs', hf, heq, hlen⟩ :=
        ih t (applyResult state res)
          h' (logs ++ [.success steps c res (applyResult state res)])
          (steps + 1) hPt
      refine ⟨fs, logs', hf, heq, ?_⟩
      rw [hlen]
      simp
      omega

/-- C2: every run appends at most `MAX_STEPS` (100) trace records; a run
over a cycle whose guards never allow exit (every node resolves, its tool
succeeds, and routing always yields a further such node) exhausts the
ceiling: it returns normally — no raise — with a trace of length exactly
100. -/
theorem c2_step_ceiling (g : Graph) (reg : ToolRegistry) (s0 : Dict)
    (h0 : Heap) :
    ((logsOfOutcome (g.run s0 reg h0)).length ≤ MAX_STEPS)
    ∧ (∀ P : String → Prop,
        P g.start_node →
        (∀ c, P c → c ≠ "") →
        (∀ c, P c → ∃ node, nodeLookup g.nodes c = some node ∧
            ∃ f, ToolRegistry.get_tool reg node.tool_name = .ok f ∧
            ∀ state h, ∃ res h', f state h = .ok (res, h')) →
        (∀ c state h, P c → ∃ t, g.get_next_node c state h = some t ∧ P t) →
        ∃ fs logs hf, g.run s0 reg h0 = .ok (fs, logs, hf)
          ∧ logs.length = MAX_STEPS) := by
  constructor
  · have := runLoop_logs_length g reg MAX_STEPS (some g.start_node) s0 h0 [] 0
    simpa [Graph.run] using this
  · intro P hstart hne hstep hnext
    obtain ⟨fs, logs', hf, heq, hlen⟩ :=
      runLoop_cycle_exact g reg P hne hstep hnext MAX_STEPS g.start_node s0 h0
        [] 0 hstart
    exact ⟨fs, logs', hf, heq, by simpa using hlen⟩

/-- A one-node graph whose single edge loops back to the node under a
guard that is always true: the never-exiting cycle of the claim. -/
def cycleGraph : Graph :=
  ((Graph.mk "Cycle" [] [] "a").add_node ⟨"a", "t"⟩).add_edge
    ⟨"a", "a", some (fun _ _ => true)⟩

/-- Registry for `cycleGraph`: the single tool returns an empty update. -/
def cycleRegistry : ToolRegistry :=
  ToolRegistry.register ⟨[]⟩ "t" demoTool

/-- Concrete instance of C2: the always-true self-loop halts normally with
a trace of exactly `MAX_STEPS` records. -/
theorem c2_witness :
    ∃ fs logs hf, cycleGraph.run [] cycleRegistry [] = .ok (fs, logs, hf)
      ∧ logs.length = MAX_STEPS := by
  refine (c2_step_ceiling cycleGraph cycleRegistry [] []).2
    (fun c => c = "a") rfl (fun c hc => by subst hc; decide)
    (fun c hc => ?_) (fun c state h hc => ?_)
  · subst hc
    exact ⟨⟨"a", "t"⟩, rfl, demoTool, rfl, fun state h => ⟨.dict [], h, rfl⟩⟩
  · subst hc
    exact ⟨"a", rfl, rfl⟩

/-! ## C3 — shallow merge of tool results -/

/-- C3: one loop iteration whose tool call succeeds.  The iteration
continues with `applyResult state res` and records `res` — dict or not —
in that step's success record.  A dict result merges shallowly: every key
of the update wins, every key absent from it keeps its pre-step value.  A
non-dict result leaves the working state exactly as it was. -/
theorem c3_tool_result_merge (g : Graph) (reg : ToolRegistry) (fuel : Nat)
    (c : String) (state : Dict) (h : Heap) (logs : List LogEntry)
    (steps : Nat) (node : Node) (f : Tool) (res : ToolResult) (h' : Heap)
    (hc : c ≠ "") (hn : nodeLookup g.nodes c = some node)
    (ht : reg.get_tool node.tool_name = .ok f)
    (hr : f state h = .ok (res, h')) :
    (runLoop g reg (fuel + 1) (some c) state h logs steps
      = runLoop g reg fuel (g.get_next_node c (applyResult state res) h')
          (applyResult state res) h'
          (logs ++ [.success steps c res (applyResult state res)])
          (steps + 1))
    ∧ (∀ u, res = .dict u → (u.map Prod.fst).Nodup →
        ∀ k, dictLookup (applyResult state res) k
          = (match dictLookup u k with
             | some v => some v
             | none => dictLookup state k))
    ∧ (∀ v, res = .nonDict v → applyResult state res = state) := by
  refine ⟨?_, ?_, ?_⟩
  · rw [runLoop, if_neg hc]
    simp only [hn, ht, hr]
  · intro u hres hnd k
    subst hres
    have := dictLookup_dictUpdate state u hnd k
    cases hu : dictLookup u k <;> simp [hu] at this <;>
      simpa [applyResult, hu] using this
  · intro v hres
    subst hres
    rfl

/-- One-node graph used to instantiate the per-step claims. -/
def stepGraph : Graph :=
  (Graph.mk "Step" [] [] "a").add_node ⟨"a", "t"⟩

/-- A tool returning the concrete update dict `{y: 2}`. -/
def updTool : Tool := fun _ h => .ok (.dict [("y", Val.vInt 2)], h)

/-- Registry binding `"t"` to `updTool`. -/
def updRegistry : ToolRegistry := ⟨[("t", updTool)]⟩

/-- Concrete instance of C3: merging `{y: 2}` into `{x: 1}` rebinds `y`
and keeps `x`. -/
theorem c3_witness :
    dictLookup (applyResult [("x", Val.vInt 1)]
        (.dict [("y", Val.vInt 2)])) "y" = some (Val.vInt 2)
    ∧ dictLookup (applyResult [("x", Val.vInt 1)]
        (.dict [("y", Val.vInt 2)])) "x" = some (Val.vInt 1) := by
  have h := c3_tool_result_merge stepGraph updRegistry 0 "a"
    [("x", Val.vInt 1)] [] [] 0 ⟨"a", "t"⟩ updTool
    (.dict [("y", Val.vInt 2)]) [] (by decide) rfl rfl rfl
  have h2 := h.2.1 [("y", Val.vInt 2)] rfl (by decide)
  exact ⟨by simpa using h2 "y", by simpa using h2 "x"⟩

/-! ## C4 — failures append an error record and abort the run -/

/-- C4: when resolving the node's tool raises (`ToolRegistry.get_tool`) or
the tool call itself raises, the engine appends a failure record — step
index, node name, `str(e)`, and no state-snapshot field (`LogEntry.failure`
has none) — and the whole loop evaluates to that raised error at once: no
further node is executed, the failure propagates to the caller. -/
theorem c4_tool_failure_aborts (g : Graph) (reg : ToolRegistry) (fuel : Nat)
    (c : String) (state : Dict) (h : Heap) (logs : List LogEntry)
    (steps : Nat) (node : Node)
    (hc : c ≠ "") (hn : nodeLookup g.nodes c = some node) :
    (∀ e, reg.get_tool node.tool_name = .error e →
        runLoop g reg (fuel + 1) (some c) state h logs steps
          = .error (e, logs ++ [.failure steps c e], h))
    ∧ (∀ f e, reg.get_tool node.tool_name = .ok f → f state h = .error e →
        runLoop g reg (fuel + 1) (some c) state h logs steps
          = .error (e, logs ++ [.failure steps c e], h)) := by
  constructor
  · intro e ht
    rw [runLoop, if_neg hc]
    simp only [hn, ht]
  · intro f e ht hr
    rw [runLoop, if_neg hc]
    simp only [hn, ht, hr]

/-- One-node graph whose node references an unregistered tool. -/
def missGraph : Graph :=
  (Graph.mk "Miss" [] [] "a").add_node ⟨"a", "missing"⟩

/-- Concrete instance of C4: an unregistered tool name makes the run abort
with the registry's `ValueError`, after appending a failure record with no
snapshot. -/
theorem c4_witness :
    runLoop missGraph ⟨[]⟩ 1 (some "a") [] [] [] 0
      = .error ("Tool " ++ "missing" ++ " not found.",
          [] ++ [.failure 0 "a" ("Tool " ++ "missing" ++ " not found.")],
          []) :=
  (c4_tool_failure_aborts missGraph ⟨[]⟩ 0 "a" [] [] [] 0 ⟨"a", "missing"⟩
    (by decide) rfl).1 ("Tool " ++ "missing" ++ " not found.") rfl

/-! ## C8 — NodeNotFound aborts, but appends no error record -/

/-- Is a trace record a failure record `{step, node, error}`? -/
def isFailureRecord : LogEntry → Bool
  | .failure _ _ _ => true
  | .success _ _ _ _ => false

/-- Graph whose start node runs fine and then routes to a name with no
entry in the node mapping. -/
def danglingGraph : Graph :=
  (((Graph.mk "Dangling" [] [] "a").add_node ⟨"a", "t"⟩).add_edge
    ⟨"a", "b", none⟩)

/-- C8 as stated is false: routing to the missing node `"b"` raises the
`NodeNotFound` `ValueError` immediately, but the `raise` sits before the
`try` block of `Graph.run`, so no error record for the failing step is
ever appended — the trace at the moment of the raise holds only the
success record of step 0 (and Python then discards even that local list,
surfacing only the exception's message to the caller). -/
theorem c8_counterexample :
    (danglingGraph.run [] cycleRegistry []
      = .error ("Node " ++ "b" ++ " not found in graph.",
          [.success 0 "a" (.dict []) []], []))
    ∧ (logsOfOutcome (danglingGraph.run [] cycleRegistry [])).countP
        isFailureRecord = 0 :=
  ⟨rfl, rfl⟩

/-- C8 amended: a current node name with no entry in the node mapping
makes the run abort at once with the `NodeNotFound` `ValueError` naming
the node — no retry, no further step — and the trace is left exactly as
accumulated: the failing step appends no record at all, and the caller
receives only the raised error, not the trace. -/
theorem c8_node_not_found_aborts (g : Graph) (reg : ToolRegistry)
    (fuel : Nat) (c : String) (state : Dict) (h : Heap)
    (logs : List LogEntry) (steps : Nat)
    (hc : c ≠ "") (hn : nodeLookup g.nodes c = none) :
    runLoop g reg (fuel + 1) (some c) state h logs steps
      = .error ("Node " ++ c ++ " not found in graph.", logs, h) := by
  rw [runLoop, if_neg hc]
  simp only [hn]

/-- Concrete instance of the amended C8: a missing start node aborts with
the naming error and an untouched (empty) trace. -/
theorem c8_witness :
    runLoop (Graph.mk "G" [] [] "a") ⟨[]⟩ 1 (some "a") [] [] [] 0
      = .error ("Node " ++ "a" ++ " not found in graph.", [], []) :=
  c8_node_not_found_aborts (Graph.mk "G" [] [] "a") ⟨[]⟩ 0 "a" [] [] [] 0
    (by decide) rfl

/-! ## C5 — the caller's state: shallow copy, shared nested objects -/

/-- A reference-free view of a value, for observing what a mapping denotes
through a given heap. -/
inductive RVal where
  | rInt : Int → RVal
  | rStr : String → RVal
  | rBool : Bool → RVal
  | rNone : RVal
  | rList : List RVal → RVal
  | rDangling : RVal
deriving Repr

/-- Deeply dereference a value through the heap, up to `fuel` levels of
references (the heap may be cyclic, hence the fuel). -/
def deepVal (h : Heap) : Nat → Val → RVal
  | _, .vInt n => .rInt n
  | _, .vStr s => .rStr s
  | _, .vBool b => .rBool b
  | _, .vNone => .rNone
  | 0, .vRef _ => .rDangling
  | fuel + 1, .vRef a =>
      match heapGet h a with
      | none => .rDangling
      | some cell => .rList (cell.map (fun v => deepVal h fuel v))

/-- What a mapping denotes through the heap: every nested value included. -/
def deepDict (h : Heap) (fuel : Nat) (d : Dict) : List (String × RVal) :=
  d.map (fun kv => (kv.1, deepVal h fuel kv.2))

/-- A tool that mutates a shared heap object (the Python analogue:
`state["log"].append(1)`) and proposes no top-level update. -/
def mutTool : Tool := fun _ h => .ok (.dict [], heapSet h 0 [Val.vInt 1])

/-- One-node graph bound to `mutTool`. -/
def mutGraph : Graph :=
  (Graph.mk "Mut" [] [] "a").add_node ⟨"a", "m"⟩

/-- Registry binding `"m"` to `mutTool`. -/
def mutRegistry : ToolRegistry := ⟨[("m", mutTool)]⟩

/-- C5 as stated is false: `state = initial_state.copy()` is a shallow
copy, so a nested object referenced from the caller's mapping is shared
with the working copy; a tool that mutates it in place changes what the
caller's original mapping contains.  Concretely, `{log: ref 0}` with cell
0 holding `[]` comes back with cell 0 holding `[1]`: the caller's mapping,
read through the heap, changed. -/
theorem c5_counterexample :
    (mutGraph.run [("log", Val.vRef 0)] mutRegistry [[]]
      = .ok ([("log", Val.vRef 0)],
          [.success 0 "a" (.dict []) [("log", Val.vRef 0)]],
          [[Val.vInt 1]]))
    ∧ deepDict [[Val.vInt 1]] 1 [("log", Val.vRef 0)]
        ≠ deepDict [[]] 1 [("log", Val.vRef 0)] :=
  ⟨rfl, by intro hcontra; simp [deepDict, deepVal, heapGet] at hcontra⟩

/-- `get_tool` succeeds exactly on registered names. -/
theorem get_tool_ok_iff (r : ToolRegistry) (nm : String) (f : Tool) :
    r.get_tool nm = .ok f ↔ regLookup r.tools nm = some f := by
  unfold ToolRegistry.get_tool
  cases h : regLookup r.tools nm <;> simp [h]

/-- The heap component of an outcome (the memory as control returns to
the caller, normally or through a raise). -/
def heapOfOutcome : RunOutcome → Heap
  | .ok (_, _, h) => h
  | .error (_, _, h) => h

/-- The engine itself never writes the heap: every heap change within the
loop comes from a tool call. -/
theorem runLoop_heap_preserved (g : Graph) (reg : ToolRegistry)
    (hpres : ∀ nm f, regLookup reg.tools nm = some f →
      ∀ state h res h', f state h = .ok (res, h') → h' = h) :
    ∀ (fuel : Nat) (cur : Option String) (state : Dict) (h : Heap)
      (logs : List LogEntry) (steps : Nat),
    heapOfOutcome (runLoop g reg fuel cur state h logs steps) = h := by
  intro fuel
  induction fuel with
  | zero => intro cur state h logs steps; simp [runLoop, heapOfOutcome]
  | succ n ih =>
      intro cur state h logs steps
      cases cur with
      | none => simp [runLoop, heapOfOutcome]
      | some c =>
          by_cases hc : c = ""
          · simp [runLoop, hc, heapOfOutcome]
          · rw [runLoop, if_neg hc]
            cases hn : nodeLookup g.nodes c with
            | none => simp [heapOfOutcome]
            | some node =>
                dsimp only
                cases ht : ToolRegistry.get_tool reg node.tool_name with
                | error e => simp [heapOfOutcome]
                | ok f =>
                    dsimp only
                    cases hr : f state h with
                    | error e => simp [heapOfOutcome]
                    | ok p =>
                        obtain ⟨res, h'⟩ := p
                        dsimp only
                        have hh : h' = h :=
                          hpres node.tool_name f
                            ((get_tool_ok_iff reg node.tool_name f).1 ht)
                            state h res h' hr
                        rw [ih]
                        exact hh

/-- C5 amended: the engine operates on a copy of the caller's mapping and
never itself mutates the heap, so whenever every registered tool leaves
the heap unchanged, the run — completing normally or by a raise — leaves
the heap, and with it every nested value the caller's mapping references,
exactly as it was.  (The counterexample above shows the qualification is
needed: the copy is shallow, so a heap-mutating tool does change what the
caller's mapping contains.) -/
theorem c5_caller_state_preserved (g : Graph) (reg : ToolRegistry)
    (initial_state : Dict) (h : Heap)
    (hpres : ∀ nm f, regLookup reg.tools nm = some f →
      ∀ state h0 res h1, f state h0 = .ok (res, h1) → h1 = h0) :
    heapOfOutcome (g.run initial_state reg h) = h
    ∧ ∀ fuel, deepDict (heapOfOutcome (g.run initial_state reg h)) fuel
        initial_state = deepDict h fuel initial_state := by
  have hh : heapOfOutcome (g.run initial_state reg h) = h := by
    unfold Graph.run
    exact runLoop_heap_preserved g reg hpres MAX_STEPS
      (some g.start_node) initial_state h [] 0
  exact ⟨hh, fun fuel => by rw [hh]⟩

/-- Concrete instance of the amended C5: with the heap-preserving
`demoTool`, a full run hands the heap back untouched. -/
theorem c5_witness :
    heapOfOutcome (cycleGraph.run [("log", Val.vRef 0)] cycleRegistry
      [[Val.vInt 7]]) = [[Val.vInt 7]] := by
  refine (c5_caller_state_preserved cycleGraph cycleRegistry
    [("log", Val.vRef 0)] [[Val.vInt 7]] ?_).1
  intro nm f hf state h0 res h1 hr
  simp only [cycleRegistry, ToolRegistry.register, regSet, regLookup] at hf
  by_cases hnm : nm = "t"
  · rw [if_pos hnm] at hf
    cases hf
    exact (by cases hr; rfl : h1 = h0)
  · rw [if_neg hnm] at hf
    cases hf

/-! ## C6 — snapshots are shallow, not deep -/

/-- Two-node graph: a harmless first step, then a step whose tool mutates
a shared heap object. -/
def twoGraph : Graph :=
  ((((Graph.mk "Two" [] [] "a").add_node ⟨"a", "t"⟩).add_node
    ⟨"b", "m"⟩).add_edge ⟨"a", "b", none⟩)

/-- Registry for `twoGraph`: `"t"` is harmless, `"m"` mutates cell 0. -/
def twoRegistry : ToolRegistry := ⟨[("t", demoTool), ("m", mutTool)]⟩

/-- C6 as stated is false: the recorded snapshot is `state.copy()`, a
shallow copy.  Step 0's snapshot holds a reference to heap cell 0; step
1's tool mutates that cell in place, so reading step 0's snapshot after
the run shows `{log: [1]}` although the working state at step 0 denoted
`{log: []}` — a later step's mutation changed what the earlier snapshot
records. -/
theorem c6_counterexample :
    (twoGraph.run [("log", Val.vRef 0)] twoRegistry [[]]
      = .ok ([("log", Val.vRef 0)],
          [.success 0 "a" (.dict []) [("log", Val.vRef 0)],
           .success 1 "b" (.dict []) [("log", Val.vRef 0)]],
          [[Val.vInt 1]]))
    ∧ deepDict [[Val.vInt 1]] 1 [("log", Val.vRef 0)]
        ≠ deepDict ([[]] : Heap) 1 [("log", Val.vRef 0)] :=
  ⟨rfl, by intro hcontra; simp [deepDict, deepVal, heapGet] at hcontra⟩

/-- The per-step snapshot discipline a successful trace does satisfy:
every record is a success record, numbered consecutively, whose snapshot
is exactly the top-level working state right after that step's merge. -/
def snapshotsOkP : Dict → Nat → List LogEntry → Prop
  | _, _, [] => True
  | s, i, .success step _ res snap :: rest =>
      step = i ∧ snap = applyResult s res
        ∧ snapshotsOkP (applyResult s res) (i + 1) rest
  | _, _, .failure _ _ _ :: _ => False

/-- Replay a trace's updates over a state (the working state a trace's
merges produce). -/
def foldRecords (s : Dict) : List LogEntry → Dict
  | [] => s
  | .success _ _ res _ :: rest => foldRecords (applyResult s res) rest
  | .failure _ _ _ :: rest => foldRecords s rest

/-- A normally returning loop appends consecutively numbered success
records whose snapshots replay the merges, and ends in the replayed
state. -/
theorem runLoop_snapshots (g : Graph) (reg : ToolRegistry) :
    ∀ (fuel : Nat) (cur : Option String) (state : Dict) (h : Heap)
      (logs : List LogEntry) (steps : Nat) (fs : Dict)
      (logs' : List LogEntry) (hf : Heap),
    runLoop g reg fuel cur state h logs steps = .ok (fs, logs', hf) →
    ∃ extra, logs' = logs ++ extra ∧ snapshotsOkP state steps extra
      ∧ fs = foldRecords state extra := by
  intro fuel
  induction fuel with
  | zero =>
      intro cur state h logs steps fs logs' hf heq
      simp [runLoop] at heq
      obtain ⟨e1, e2, e3⟩ := heq
      subst e1; subst e2
      exact ⟨[], by simp, trivial, rfl⟩
  | succ n ih =>
      intro cur state h logs steps fs logs' hf heq
      cases cur with
      | none =>
          simp [runLoop] at heq
          obtain ⟨e1, e2, e3⟩ := heq
          subst e1; subst e2
          exact ⟨[], by simp, trivial, rfl⟩
      | some c =>
          by_cases hc : c = ""
          · rw [runLoop, if_pos hc] at heq
            obtain ⟨e1, e2, e3⟩ := by simpa using heq
            subst e1; subst e2
            exact ⟨[], by simp, trivial, rfl⟩
          · rw [runLoop, if_neg hc] at heq
            cases hn : nodeLookup g.nodes c with
            | none => rw [hn] at heq; simp at heq
            | some node =>
                rw [hn] at heq
                dsimp only at heq
                cases ht : ToolRegistry.get_tool reg node.tool_name with
                | error e => rw [ht] at heq; simp at heq
                | ok f =>
                    rw [ht] at heq
                    dsimp only at heq
                    cases hr : f state h with
                    | error e => rw [hr] at heq; simp at heq
                    | ok p =>
                        obtain ⟨res, h'⟩ := p
                        rw [hr] at heq
                        dsimp only at heq
                        obtain ⟨extra, he1, he2, he3⟩ :=
                          ih _ _ _ _ _ _ _ _ heq
                        refine ⟨.success steps c res (applyResult state res)
                          :: extra, ?_, ?_, ?_⟩
                        · rw [he1]; simp
                        · exact ⟨rfl, rfl, he2⟩
                        · simpa [foldRecords] using he3
/-- C6 amended: each trace record of a normal run is a success record,
numbered consecutively from 0, whose `state_snapshot` is the top-level
working state immediately after that step's merge (`state.copy()`), and
the final state replays those merges; later steps never rebind an earlier
snapshot's top-level entries.  The snapshot is shallow, not deep: as the
counterexample shows, in-place mutation of a nested object by a later
step is visible through an earlier snapshot. -/
theorem c6_snapshots_track_state (g : Graph) (reg : ToolRegistry)
    (s0 : Dict) (h0 : Heap) (fs : Dict) (logs : List LogEntry) (hf : Heap)
    (hrun : g.run s0 reg h0 = .ok (fs, logs, hf)) :
    snapshotsOkP s0 0 logs ∧ fs = foldRecords s0 logs := by
  unfold Graph.run at hrun
  obtain ⟨extra, he1, he2, he3⟩ :=
    runLoop_snapshots g reg MAX_STEPS (some g.start_node) s0 h0 [] 0
      fs logs hf hrun
  simp at he1
  subst he1
  exact ⟨he2, he3⟩

/-- Concrete instance of the amended C6: a one-step run whose snapshot is
exactly the post-merge state, which is also the final state. -/
theorem c6_witness :
    snapshotsOkP [("x", Val.vInt 1)] 0
        [.success 0 "a" (.dict [("y", Val.vInt 2)])
          [("x", Val.vInt 1), ("y", Val.vInt 2)]]
      ∧ [("x", Val.vInt 1), ("y", Val.vInt 2)]
        = foldRecords [("x", Val.vInt 1)]
            [.success 0 "a" (.dict [("y", Val.vInt 2)])
              [("x", Val.vInt 1), ("y", Val.vInt 2)]] :=
  c6_snapshots_track_state stepGraph updRegistry [("x", Val.vInt 1)] []
    _ _ _ rfl

/-! ## C9 — determinism

To state determinism non-vacuously, tools are modelled here as relations
between an input (state, heap) and an outcome: a nondeterministic tool
may relate one input to several outcomes.  `RunRel` mirrors the loop of
`Graph.run` constructor by constructor; `runLoop` is its functional
special case (`runLoop_runRel`).  The claim is then: when every
registered tool is a deterministic relation (the guards, `Edge.condition`,
are functions already), any two derivations from the same graph, registry
and initial state reach the same outcome — same final state, same trace.
-/

/-- A tool as a relation from (state, heap) to outcomes. -/
abbrev ToolRel := Dict → Heap → Except String (ToolResult × Heap) → Prop

/-- A registry of relational tools. -/
structure RelRegistry where
  tools : List (String × ToolRel)

/-- lookup in the relational registry (same shape as `regLookup`). -/
def relLookup : List (String × ToolRel) → String → Option ToolRel
  | [], _ => none
  | (k', v) :: rest, k => if k = k' then some v else relLookup rest k

/-- The loop of `Graph.run` with relational tools, one constructor per
exit or step of the `while` loop. -/
inductive RunRel (g : Graph) (reg : RelRegistry) :
    Nat → Option String → Dict → Heap → List LogEntry → Nat → RunOutcome →
    Prop where
  | ceiling : ∀ cur state h logs steps,
      RunRel g reg 0 cur state h logs steps (.ok (state, logs, h))
  | doneNone : ∀ fuel state h logs steps,
      RunRel g reg (fuel + 1) none state h logs steps (.ok (state, logs, h))
  | doneEmpty : ∀ fuel state h logs steps,
      RunRel g reg (fuel + 1) (some "") state h logs steps
        (.ok (state, logs, h))
  | nodeMissing : ∀ fuel c state h logs steps, c ≠ "" →
      nodeLookup g.nodes c = none →
      RunRel g reg (fuel + 1) (some c) state h logs steps
        (.error ("Node " ++ c ++ " not found in graph.", logs, h))
  | toolMissing : ∀ fuel c state h logs steps node, c ≠ "" →
      nodeLookup g.nodes c = some node →
      relLookup reg.tools node.tool_name = none →
      RunRel g reg (fuel + 1) (some c) state h logs steps
        (.error ("Tool " ++ node.tool_name ++ " not found.",
          logs ++ [.failure steps c
            ("Tool " ++ node.tool_name ++ " not found.")], h))
  | toolRaised : ∀ fuel c state h logs steps node T e, c ≠ "" →
      nodeLookup g.nodes c = some node →
      relLookup reg.tools node.tool_name = some T →
      T state h (.error e) →
      RunRel g reg (fuel + 1) (some c) state h logs steps
        (.error (e, logs ++ [.failure steps c e], h))
  | toolOk : ∀ fuel c state h logs steps node T res h' out, c ≠ "" →
      nodeLookup g.nodes c = some node →
      relLookup reg.tools node.tool_name = some T →
      T state h (.ok (res, h')) →
      RunRel g reg fuel (g.get_next_node c (applyResult state res) h')
        (applyResult state res) h'
        (logs ++ [.success steps c res (applyResult state res)])
        (steps + 1) out →
      RunRel g reg (fuel + 1) (some c) state h logs steps out

/-- A tool relation is deterministic when each input reaches at most one
outcome. -/
def ToolRel.Deterministic (T : ToolRel) : Prop :=
  ∀ state h o1 o2, T state h o1 → T state h o2 → o1 = o2

/-- Determinism of `RunRel` at every configuration, by induction over one
derivation and inversion of the other. -/
theorem runRel_det_aux (g : Graph) (reg : RelRegistry)
    (hdet : ∀ nm T, relLookup reg.tools nm = some T → T.Deterministic) :
    ∀ (fuel : Nat) (cur : Option String) (state : Dict) (h : Heap)
      (logs : List LogEntry) (steps : Nat) (o1 o2 : RunOutcome),
    RunRel g reg fuel cur state h logs steps o1 →
    RunRel g reg fuel cur state h logs steps o2 → o1 = o2 := by
  intro fuel cur state h logs steps o1 o2 d1
  induction d1 generalizing o2 with
  | ceiling cur state h logs steps =>
      intro d2
      cases d2
      rfl
  | doneNone fuel state h logs steps =>
      intro d2
      cases d2
      rfl
  | doneEmpty fuel state h logs steps =>
      intro d2
      cases d2 <;> simp_all
  | nodeMissing fuel c state h logs steps hc hn =>
      intro d2
      cases d2 <;> simp_all
  | toolMissing fuel c state h logs steps node hc hn hl =>
      intro d2
      cases d2 <;> simp_all
  | toolRaised fuel c state h logs steps node T e hc hn hl hT =>
      intro d2
      cases d2 with
      | doneEmpty => exact absurd rfl hc
      | nodeMissing _ _ _ _ _ _ _ hn2 => simp_all
      | toolMissing _ _ _ _ _ _ _ _ hn2 hl2 => simp_all
      | toolRaised _ _ _ _ _ _ node2 T2 e2 _ hn2 hl2 hT2 =>
          rw [hn] at hn2
          cases hn2
          rw [hl] at hl2
          cases hl2
          have := hdet _ _ hl _ _ _ _ hT hT2
          cases this
          rfl
      | toolOk _ _ _ _ _ _ node2 T2 res h' out _ hn2 hl2 hT2 _ =>
          rw [hn] at hn2
          cases hn2
          rw [hl] at hl2
          cases hl2
          exact absurd (hdet _ _ hl _ _ _ _ hT hT2) (by simp)
  | toolOk fuel c state h logs steps node T res h' out hc hn hl hT hrest ih =>
      intro d2
      cases d2 with
      | doneEmpty => exact absurd rfl hc
      | nodeMissing _ _ _ _ _ _ _ hn2 => simp_all
      | toolMissing _ _ _ _ _ _ _ _ hn2 hl2 => simp_all
      | toolRaised _ _ _ _ _ _ node2 T2 e2 _ hn2 hl2 hT2 =>
          rw [hn] at hn2
          cases hn2
          rw [hl] at hl2
          cases hl2
          exact absurd (hdet _ _ hl _ _ _ _ hT hT2) (by simp)
      | toolOk _ _ _ _ _ _ node2 T2 res2 h2 out2 _ hn2 hl2 hT2 hrest2 =>
          rw [hn] at hn2
          cases hn2
          rw [hl] at hl2
          cases hl2
          have heq := hdet _ _ hl _ _ _ _ hT hT2
          rw [Except.ok.injEq, Prod.mk.injEq] at heq
          obtain ⟨hres, hh⟩ := heq
          subst hres
          subst hh
          exact ih _ hrest2
/-- C9: for a fixed graph, relational registry and initial state, if every
registered tool relation is deterministic, two runs from the same initial
configuration reach the same outcome: identical final states, identical
traces (and identical heaps). -/
theorem c9_run_deterministic (g : Graph) (reg : RelRegistry) (s0 : Dict)
    (h0 : Heap) (o1 o2 : RunOutcome)
    (hdet : ∀ nm T, relLookup reg.tools nm = some T → T.Deterministic)
    (h1 : RunRel g reg MAX_STEPS (some g.start_node) s0 h0 [] 0 o1)
    (h2 : RunRel g reg MAX_STEPS (some g.start_node) s0 h0 [] 0 o2) :
    o1 = o2 :=
  runRel_det_aux g reg hdet MAX_STEPS (some g.start_node) s0 h0 [] 0 o1 o2
    h1 h2

/-- A function-backed tool, seen as a relation: it relates an input to
exactly the outcome the function computes. -/
def relOfTool (f : Tool) : ToolRel := fun state h out => f state h = out

/-- A registry of functions, seen as a relational registry. -/
def relOfRegistry (reg : ToolRegistry) : RelRegistry :=
  ⟨reg.tools.map (fun kv => (kv.1, relOfTool kv.2))⟩

/-- A function-backed tool relation is deterministic. -/
theorem relOfTool_deterministic (f : Tool) : (relOfTool f).Deterministic :=
  fun _ _ _ _ h1 h2 => by rw [← h1, h2]

theorem relLookup_map_relOfTool (ts : List (String × Tool)) (nm : String) :
    relLookup (ts.map (fun kv => (kv.1, relOfTool kv.2))) nm
      = (regLookup ts nm).map relOfTool := by
  induction ts with
  | nil => rfl
  | cons kv rest ih =>
      obtain ⟨k, f⟩ := kv
      by_cases hk : nm = k <;> simp [relLookup, regLookup, hk, ih]

/-- Every tool of a function-backed relational registry is deterministic. -/
theorem relOfRegistry_deterministic (reg : ToolRegistry) :
    ∀ nm T, relLookup (relOfRegistry reg).tools nm = some T →
      T.Deterministic := by
  intro nm T hT
  rw [show (relOfRegistry reg).tools
      = reg.tools.map (fun kv => (kv.1, relOfTool kv.2)) from rfl,
    relLookup_map_relOfTool] at hT
  cases hreg : regLookup reg.tools nm with
  | none => rw [hreg] at hT; cases hT
  | some f =>
      rw [hreg] at hT
      cases hT
      exact relOfTool_deterministic f

/-- `get_tool` raises exactly on unregistered names, with the naming
message. -/
theorem get_tool_error_iff (r : ToolRegistry) (nm e : String) :
    r.get_tool nm = .error e
      ↔ regLookup r.tools nm = none ∧ e = "Tool " ++ nm ++ " not found." := by
  unfold ToolRegistry.get_tool
  cases h : regLookup r.tools nm <;> simp [h, eq_comm]

/-- Adequacy of the relational model: the functional loop `runLoop` is a
`RunRel` derivation over the function-backed relational registry. -/
theorem runLoop_runRel (g : Graph) (reg : ToolRegistry) :
    ∀ (fuel : Nat) (cur : Option String) (state : Dict) (h : Heap)
      (logs : List LogEntry) (steps : Nat),
    RunRel g (relOfRegistry reg) fuel cur state h logs steps
      (runLoop g reg fuel cur state h logs steps) := by
  intro fuel
  induction fuel with
  | zero =>
      intro cur state h logs steps
      exact RunRel.ceiling cur state h logs steps
  | succ n ih =>
      intro cur state h logs steps
      cases cur with
      | none => exact RunRel.doneNone n state h logs steps
      | some c =>
          by_cases hc : c = ""
          · subst hc
            exact RunRel.doneEmpty n state h logs steps
          · rw [runLoop, if_neg hc]
            cases hn : nodeLookup g.nodes c with
            | none => exact RunRel.nodeMissing n c state h logs steps hc hn
            | some node =>
                dsimp only
                cases ht : ToolRegistry.get_tool reg node.tool_name with
                | error e =>
                    obtain ⟨hmiss, he⟩ := (get_tool_error_iff reg
                      node.tool_name e).1 ht
                    subst he
                    refine RunRel.toolMissing n c state h logs steps node
                      hc hn ?_
                    rw [show (relOfRegistry reg).tools
                        = reg.tools.map (fun kv => (kv.1, relOfTool kv.2))
                        from rfl,
                      relLookup_map_relOfTool, hmiss]
                    rfl
                | ok f =>
                    have hfound : relLookup (relOfRegistry reg).tools
                        node.tool_name = some (relOfTool f) := by
                      rw [show (relOfRegistry reg).tools
                          = reg.tools.map (fun kv => (kv.1, relOfTool kv.2))
                          from rfl,
                        relLookup_map_relOfTool,
                        (get_tool_ok_iff reg node.tool_name f).1 ht]
                      rfl
                    dsimp only
                    cases hr : f state h with
                    | error e =>
                        exact RunRel.toolRaised n c state h logs steps node
                          (relOfTool f) e hc hn hfound hr
                    | ok p =>
                        obtain ⟨res, h'⟩ := p
                        dsimp only
                        exact RunRel.toolOk n c state h logs steps node
                          (relOfTool f) res h' _ hc hn hfound hr
                          (ih _ _ _ _ _)

/-- Concrete instance of C9: the loop outcome on a one-node graph agrees
with a second, hand-built derivation of the same initial configuration,
by determinism. -/
theorem c9_witness :
    runLoop stepGraph updRegistry MAX_STEPS (some stepGraph.start_node)
      [("x", Val.vInt 1)] [] [] 0
      = .ok ([("x", Val.vInt 1), ("y", Val.vInt 2)],
          [.success 0 "a" (.dict [("y", Val.vInt 2)])
            [("x", Val.vInt 1), ("y", Val.vInt 2)]], []) :=
  c9_run_deterministic stepGraph (relOfRegistry updRegistry)
    [("x", Val.vInt 1)] [] _ _
    (relOfRegistry_deterministic updRegistry)
    (runLoop_runRel stepGraph updRegistry MAX_STEPS
      (some stepGraph.start_node) [("x", Val.vInt 1)] [] [] 0)
    (RunRel.toolOk 99 "a" [("x", Val.vInt 1)] [] [] 0 ⟨"a", "t"⟩
      (relOfTool updTool) (.dict [("y", Val.vInt 2)]) [] _
      (by decide) rfl rfl rfl
      (RunRel.doneNone 98 [("x", Val.vInt 1), ("y", Val.vInt 2)] []
        [.success 0 "a" (.dict [("y", Val.vInt 2)])
          [("x", Val.vInt 1), ("y", Val.vInt 2)]] 1))
